import Mathlib

/-!
# Verification of `src/scrape_p2p_docs.py`

A shallow embedding of the documentation scraper. The program is a linear
pipeline: fetch a seed document with retry/backoff (`fetch_url`), extract
markdown links (`extract_md_links`), download them recording per-URL
success/failure (`download_md_file` plus the collection loop in `main`),
aggregate the successful bodies into one document, and write a manifest of
failed URLs.

Network responses, the jitter drawn by `random.uniform(0, 1)`, task
completion order and file-write failures are inputs of the embedding, so
every function here is a pure, executable Lean function.
-/

/-- Outcome of one HTTP GET request as seen by `fetch_url`
(src/scrape_p2p_docs.py lines 61-78): either a response carrying a status
code and a body, or one of the caught exceptions `requests.Timeout`,
`requests.ConnectionError`, `requests.RequestException`. -/
inductive HttpResponse where
  | status (code : Nat) (body : String)
  | timeout
  | connError
  | reqError
deriving DecidableEq

/-- `RETRY_DELAY_BASE = 2` (line 33), the base of the exponential backoff. -/
def RETRY_DELAY_BASE : ℚ := 2

/-- Observable trace of one `fetch_url` call: the returned value, the number
of requests performed, and the backoff delays slept, in order. -/
structure FetchTrace where
  result : Option String
  attempts : Nat
  sleeps : List ℚ
deriving DecidableEq

/-- The retry loop of `fetch_url` (lines 60-87). `attempt` is the 0-indexed
current attempt, `fuel` the number of loop iterations left (the loop is
`for attempt in range(retries + 1)`, so `fetch_url` starts `fuel` at
`retries + 1`). `responses attempt` is the network outcome of that attempt,
`jitter attempt` the value `random.uniform(0, 1)` returns before the retry
following it. A 200 response returns the body at once, a 404 returns `None`
at once; on any other status or caught exception the loop sleeps
`RETRY_DELAY_BASE ** attempt + jitter` (only when `attempt < retries`) and
continues; after the loop, `None`. -/
def fetchAux (responses : Nat → HttpResponse) (jitter : Nat → ℚ) (retries : Nat) :
    Nat → Nat → FetchTrace
  | _, 0 => ⟨none, 0, []⟩
  | attempt, fuel + 1 =>
    let rest := fetchAux responses jitter retries (attempt + 1) fuel
    let retryStep : FetchTrace :=
      if attempt < retries then
        ⟨rest.result, rest.attempts + 1, (RETRY_DELAY_BASE ^ attempt + jitter attempt) :: rest.sleeps⟩
      else
        ⟨rest.result, rest.attempts + 1, rest.sleeps⟩
    match responses attempt with
    | .status code body =>
      if code = 200 then ⟨some body, 1, []⟩
      else if code = 404 then ⟨none, 1, []⟩
      else retryStep
    | _ => retryStep

/-- `fetch_url(url, retries, timeout)` (lines 46-87), with the network
behaviour of the URL given by `responses` and the drawn jitter by `jitter`. -/
def fetch_url (responses : Nat → HttpResponse) (jitter : Nat → ℚ) (retries : Nat) : FetchTrace :=
  fetchAux responses jitter retries 0 (retries + 1)

/-- A response on which `fetch_url` retries: any status other than 200 and
404, or any of the caught request exceptions (lines 65-78). -/
def retryable : HttpResponse → Bool
  | .status code _ => !(code == 200) && !(code == 404)
  | _ => true

/-- The tail `(.*?\.md)\)` of the link pattern (line 104), entered just after
`](`: the lazy `.*?` consumes the shortest run of non-newline characters
after which the literal `.md)` matches. Returns the captured group (the
consumed run followed by `.md`) and the input remaining after `)`. -/
def matchTarget : List Char → Option (List Char × List Char)
  | [] => none
  | c :: cs =>
    if c = '.' ∧ cs.take 3 = ['m', 'd', ')'] then some (['.', 'm', 'd'], cs.drop 3)
    else if c = '\n' then none
    else (matchTarget cs).map fun p => (c :: p.1, p.2)

/-- After the label's `]`, the pattern needs a literal `(` and then the
target; anything else fails this alternative. -/
def innerParen : List Char → Option (List Char × List Char)
  | [] => none
  | d :: cs2 => if d = '(' then matchTarget cs2 else none

/-- The part `.*?\]\((.*?\.md)\)` of the pattern after the opening `[`: the
lazy label stops at each `]` and tries `\((.*?\.md)\)` there; on failure the
label consumes the `]` and goes on. `.` never matches a newline. -/
def matchAfterBracket : List Char → Option (List Char × List Char)
  | [] => none
  | c :: cs =>
    if c = ']' then
      match innerParen cs with
      | some p => some p
      | none => matchAfterBracket cs
    else if c = '\n' then none
    else matchAfterBracket cs

/-- `re.findall(r'\[.*?\]\((.*?\.md)\)', text)` (lines 104-105): scan left to
right; at each `[` try the rest of the pattern; on a match record the
captured target and resume after the match (matches do not overlap). `fuel`
bounds the recursion; `findall` supplies the input length, which suffices
because a match always consumes past its starting `[`. -/
def findallAux : Nat → List Char → List (List Char)
  | 0, _ => []
  | _fuel + 1, [] => []
  | fuel + 1, c :: cs =>
    if c = '[' then
      match matchAfterBracket cs with
      | some (cap, rest) => cap :: findallAux fuel rest
      | none => findallAux fuel cs
    else findallAux fuel cs

/-- All captured `.md` targets of the pattern, in match order. -/
def findall (s : List Char) : List (List Char) :=
  findallAux s.length s

/-- `BASE_URL` (line 27). -/
def BASE_URL : String := "https://docs.p2p.org/"

/-- Whether a reference starts with a URL scheme (`letter`, then letters,
digits, `+`, `-` or `.`, then `:`), after `urllib.parse`. -/
def hasSchemeAux : List Char → Bool
  | [] => false
  | c :: cs =>
    if c = ':' then true
    else if c.isAlphanum || c == '+' || c == '-' || c == '.' then hasSchemeAux cs
    else false

/-- See `hasSchemeAux`; the first character must be a letter
(`urlsplit` only recognises a scheme when `url.find(':') > 0` and the part
before the colon is all scheme characters starting with a letter). -/
def hasScheme : List Char → Bool
  | [] => false
  | c :: cs => c.isAlpha && hasSchemeAux (c :: cs)

/-- Python `str.split('/')` on character lists: `""` gives `[""]`, a
leading, trailing or doubled `/` gives empty segments. -/
def splitSlash : List Char → List (List Char)
  | [] => [[]]
  | c :: cs =>
    if c = '/' then [] :: splitSlash cs
    else
      match splitSlash cs with
      | [] => [[c]]
      | s :: ss => (c :: s) :: ss

/-- Split at the first occurrence of `sep`: the parts before and after it
(the latter empty when `sep` is absent — reassembly treats a present-but-
empty piece and an absent one alike, as `urlunsplit` drops empty ones). -/
def splitFirst (sep : Char) : List Char → List Char × List Char
  | [] => ([], [])
  | c :: cs =>
    if c = sep then ([], cs)
    else
      let p := splitFirst sep cs
      (c :: p.1, p.2)

/-- `urlparse`'s `_splitparams`: the part of the last `/`-separated segment
after its first `;` becomes the params; returns the path without them and
the params (empty when there is no `;` in the last segment). -/
def splitParams (p : List Char) : List Char × List Char :=
  let segs := splitSlash p
  let last := segs.getLastD []
  if last.contains ';' then
    let q := splitFirst ';' last
    (List.intercalate ['/'] (segs.dropLast ++ [q.1]), q.2)
  else (p, [])

/-- Split a reference without scheme or netloc into path, params, query and
fragment, as `urlsplit`/`urlparse` do: the fragment follows the first `#`,
the query the first `?` before it, the params the first `;` of the path's
last segment. -/
def splitRef (r : List Char) : List Char × List Char × List Char × List Char :=
  let f := splitFirst '#' r
  let q := splitFirst '?' f.1
  let pp := splitParams q.1
  (pp.1, pp.2, q.2, f.2)

/-- An optional reassembled component with its separator, dropped when
empty, as `urlunparse`/`urlunsplit` do. -/
def addPart (sep : Char) (l : List Char) : List Char :=
  if l = [] then [] else sep :: l

/-- The dot-segment loop of `urljoin`: `..` pops the last kept segment
(silently ignored on an empty stack), `.` is dropped, anything else is
kept. The first argument holds the kept segments in reverse. -/
def resolveDots : List (List Char) → List (List Char) → List (List Char)
  | acc, [] => acc.reverse
  | acc, seg :: rest =>
    if seg = ['.', '.'] then resolveDots acc.tail rest
    else if seg = ['.'] then resolveDots acc rest
    else resolveDots (seg :: acc) rest

/-- `urljoin`'s path resolution against the base path `/`: an absolute path
is split as is; a relative one is prefixed by the base's leading empty
segment with its interior empty segments dropped (the last is kept); dot
segments are then resolved, a trailing `.` or `..` leaves a trailing slash,
an empty result is `/`, and `urlunsplit` prepends a `/` before joining the
path to the netloc. -/
def resolvePath (p : List Char) : List Char :=
  let relsegs := splitSlash p
  let lastSeg := relsegs.getLastD []
  let segments :=
    if ['/'].isPrefixOf p then relsegs
    else [[]] ++ relsegs.dropLast.filter (fun s => !s.isEmpty) ++ [lastSeg]
  let res := resolveDots [] segments
  let res := if lastSeg = ['.'] ∨ lastSeg = ['.', '.'] then res ++ [[]] else res
  let path := List.intercalate ['/'] res
  let path := if path = [] then ['/'] else path
  if ['/'].isPrefixOf path then path else '/' :: path

/-- Resolution against the base of a reference that carries no netloc of
its own (it keeps the base's): an empty path with no params keeps the
base's root path (and, the base having none, the reference's query); any
other path is resolved against the base. -/
def resolveRefPath (r : List Char) : List Char :=
  let x := splitRef r
  if x.1 = [] ∧ x.2.1 = [] then
    "https://docs.p2p.org/".data ++ addPart '?' x.2.2.1 ++ addPart '#' x.2.2.2
  else
    "https://docs.p2p.org".data ++ resolvePath x.1 ++ addPart ';' x.2.1 ++
      addPart '?' x.2.2.1 ++ addPart '#' x.2.2.2

/-- Resolution of a scheme-less reference (or of the rest of a same-scheme
one) against the base `https://docs.p2p.org/`: a `//` reference with a
non-empty netloc keeps that netloc and its path unresolved; with an empty
netloc it takes the base's netloc and its path is resolved like any other
(`urljoin` only returns early on a truthy netloc). -/
def resolveRef (r : List Char) : List Char :=
  if ['/', '/'].isPrefixOf r then
    let after := r.drop 2
    let netloc := after.takeWhile fun c => !(c == '/' || c == '?' || c == '#')
    let tail := after.dropWhile fun c => !(c == '/' || c == '?' || c == '#')
    if netloc = [] then resolveRefPath tail
    else
      let x := splitRef tail
      "https://".data ++ netloc ++ x.1 ++ addPart ';' x.2.1 ++ addPart '?' x.2.2.1 ++
        addPart '#' x.2.2.2
  else resolveRefPath r

/-- Models `urllib.parse.urljoin` from the Python standard library (CPython
3.11) at the fixed base `https://docs.p2p.org/` (scheme `https`, netloc
`docs.p2p.org`, path `/`, no params, query or fragment). An empty reference
yields the base. Otherwise `urlsplit` first strips leading C0-control and
space characters and removes every tab, carriage return and newline; a
reference whose scheme (compared lowercased) differs from `https` is
returned verbatim; a same-scheme reference is resolved like a scheme-less
one after its scheme is stripped; scheme-less references resolve per
`resolveRef`. -/
def urljoin (base rel : String) : String :=
  if rel = "" then base
  else
    let r := (rel.data.dropWhile fun c => c.toNat ≤ 32).filter
      fun c => !(c == '\t' || c == '\r' || c == '\n')
    if hasScheme r then
      if (r.takeWhile fun c => !(c == ':')).map Char.toLower = "https".data then
        String.mk (resolveRef ((r.dropWhile fun c => !(c == ':')).drop 1))
      else rel
    else String.mk (resolveRef r)

/-- Lines 110-113: a captured target already starting with `http://` or
`https://` is kept as is; any other is resolved with
`urljoin(BASE_URL, match)`. -/
def normalizeLink (m : String) : String :=
  if "http://".data.isPrefixOf m.data || "https://".data.isPrefixOf m.data then m
  else urljoin BASE_URL m

/-- `extract_md_links(text_content)` (lines 89-116). `None` and the empty
string are falsy, so both yield the empty set; otherwise every captured
target is normalized and the results are collected into a set. -/
def extract_md_links (text_content : Option String) : Finset String :=
  match text_content with
  | none => ∅
  | some t =>
    if t = "" then ∅
    else ((findall t.data).map fun m => normalizeLink (String.mk m)).toFinset

/-- How one download task ends, as observed by the collection loop in `main`
(lines 175-194): either `future.result()` returns the pair produced by
`download_md_file` — whose second component is the `content`, with
`writeFails` telling whether the subsequent write of the individual file
(lines 183-186) raises — or the task raises and `future.result()` re-raises. -/
inductive TaskOutcome where
  | completed (content : Option String) (writeFails : Bool)
  | raised
deriving DecidableEq

/-- `download_md_file(url)` (lines 118-133), with the value returned by its
`fetch_url(url)` call passed explicitly: a truthy content is returned as is,
a falsy one (`None` or the empty string) as `(url, None)`. -/
def download_md_file (url : String) (fetched : Option String) : String × Option String :=
  match fetched with
  | some content => if content = "" then (url, none) else (url, some content)
  | none => (url, none)

/-- One iteration of the collection loop (lines 175-194): on a truthy
content the record is appended to `results` and then the individual file is
written — if that write raises, the `except` clause appends the URL to
`failed_urls` as well; on a falsy content, or when the task raised, the URL
goes to `failed_urls` only. -/
def processResult (acc : List (String × String) × List String) (url : String)
    (oc : TaskOutcome) : List (String × String) × List String :=
  match oc with
  | .raised => (acc.1, acc.2 ++ [url])
  | .completed content writeFails =>
    match content with
    | none => (acc.1, acc.2 ++ [url])
    | some c =>
      if c = "" then (acc.1, acc.2 ++ [url])
      else if writeFails then (acc.1 ++ [(url, c)], acc.2 ++ [url])
      else (acc.1 ++ [(url, c)], acc.2)

/-- The whole collection loop of `main` (lines 158-227): process the task
outcomes in completion order, starting from empty `results` and
`failed_urls`. -/
def downloadAll (items : List (String × TaskOutcome)) :
    List (String × String) × List String :=
  items.foldl (fun acc i => processResult acc i.1 i.2) ([], [])

/-- The success record one item contributes to `results`, if any. -/
def succRecord : String × TaskOutcome → Option (String × String)
  | (url, .completed (some c) _) => if c = "" then none else some (url, c)
  | _ => none

/-- The entry one item contributes to `failed_urls`, if any. -/
def failUrl : String × TaskOutcome → Option String
  | (url, .raised) => some url
  | (url, .completed none _) => some url
  | (url, .completed (some c) w) => if c = "" then some url else if w then some url else none

/-- An outcome recorded in `results`: the task completed with truthy content. -/
def succOutcome : TaskOutcome → Bool
  | .completed (some c) _ => !(c == "")
  | _ => false

/-- An outcome recorded in `failed_urls`: the task raised, its content was
falsy, or the individual-file write raised. -/
def failOutcome : TaskOutcome → Bool
  | .raised => true
  | .completed none _ => true
  | .completed (some c) w => c == "" || w

/-- An outcome recorded in both lists: truthy content whose file write raised. -/
def doubleOutcome : TaskOutcome → Bool
  | .completed (some c) w => !(c == "") && w
  | _ => false

/-- `os.path.basename(url)` (lines 183, 247, 255): the characters after the
last `/`. -/
def basename (url : String) : String :=
  String.mk (url.data.foldl (fun acc c => if c = '/' then [] else acc ++ [c]) [])

/-- Python `str.replace(old, new)` for ASCII text: replace the non-overlapping
occurrences of `pat`, scanning left to right. `fuel` (the input length at the
top call) bounds the recursion. -/
def pyReplaceGo (pat repl : List Char) : Nat → List Char → List Char
  | 0, s => s
  | _fuel + 1, [] => []
  | fuel + 1, c :: cs =>
    if pat.isPrefixOf (c :: cs) then repl ++ pyReplaceGo pat repl fuel ((c :: cs).drop pat.length)
    else c :: pyReplaceGo pat repl fuel cs

/-- Python `str.replace(old, new)`. -/
def pyReplace (s pat repl : String) : String :=
  String.mk (pyReplaceGo pat.data repl.data s.data.length s.data)

/-- Worker for `pyTitle`; `prevAlpha` tells whether the previous character
was a letter. -/
def pyTitleGo : Bool → List Char → List Char
  | _, [] => []
  | prevAlpha, c :: cs =>
    if c.isAlpha then (if prevAlpha then c.toLower else c.toUpper) :: pyTitleGo true cs
    else c :: pyTitleGo false cs

/-- Python `str.title()` for ASCII text: the first letter of every maximal
letter run is uppercased, the rest lowercased, other characters are kept. -/
def pyTitle (s : String) : String :=
  String.mk (pyTitleGo false s.data)

/-- Python `str.lower()` for ASCII text. -/
def pyLower (s : String) : String :=
  String.mk (s.data.map Char.toLower)

/-- The section/TOC title of a record (lines 248, 256):
`os.path.basename(url).replace('.md', '').replace('-', ' ').title()`. -/
def titleFor (url : String) : String :=
  pyTitle (pyReplace (pyReplace (basename url) ".md" "") "-" " ")

/-- The TOC anchor of a record (line 249): `title.lower().replace(' ', '-')`. -/
def anchorFor (url : String) : String :=
  pyReplace (pyLower (titleFor url)) " " "-"

/-- One table-of-contents line (line 249); `i` counts from 1. -/
def tocLine (i : Nat) (url : String) : String :=
  toString i ++ ". [" ++ titleFor url ++ "](#" ++ anchorFor url ++ ")\n"

/-- One content section (lines 254-261): header, source attribution, the
downloaded content verbatim, and a separator. -/
def sectionBlock (url content : String) : String :=
  "## " ++ titleFor url ++ "\n\n" ++ "*Source: [" ++ url ++ "](" ++ url ++ ")*\n\n" ++
  content ++ "\n\n---\n\n"

/-- The aggregate document written to `OUTPUT_FILE` (lines 239-261), with the
`time.strftime` timestamp passed as `ts`: title, summary line, timestamp
line, table of contents over the records in collection order, a separator,
then one section per record in the same order. -/
def aggregate_doc (results : List (String × String)) (ts : String) : String :=
  "# P2P.org Aggregated Documentation\n\n" ++
  "*This file contains aggregated documentation from " ++ toString results.length ++
  " markdown files.*\n\n" ++
  "*Generated on: " ++ ts ++ "*\n\n" ++
  "## Table of Contents\n\n" ++
  String.join (results.enum.map fun p => tocLine (p.1 + 1) p.2.1) ++
  "\n---\n\n" ++
  String.join (results.map fun p => sectionBlock p.1 p.2)

/-- The content of `failed_urls.txt` (lines 265-267): each failed URL
followed by a newline, in list order. -/
def manifestText (failed : List String) : String :=
  String.join (failed.map fun u => u ++ "\n")

/-- The individual files written into `markdown_files/` (lines 182-186,
one per task whose content was truthy and whose write did not raise),
as pairs of `os.path.basename(url)` and content. -/
def writtenFiles (items : List (String × TaskOutcome)) : List (String × String) :=
  items.filterMap fun i =>
    match i.2 with
    | .completed (some c) false => if c = "" then none else some (basename i.1, c)
    | _ => none

/-- Python truthiness of an `Optional[str]`: `None` and `''` are falsy. -/
def falsy : Option String → Bool
  | none => true
  | some s => s == ""

/-- How far `main` (lines 135-280) gets: aborted at the seed-fetch guard
(line 144), aborted at the no-links guard (line 152), or ran to completion. -/
inductive RunPhase where
  | abortedNoSeed
  | abortedNoLinks
  | completed
deriving DecidableEq

/-- The observable effects of one `main` run: the phase reached, the URLs
submitted to the executor, the individual files written, the aggregate
document (`none` when never written), and the failure manifest (`none` when
never written). -/
structure RunResult where
  phase : RunPhase
  submitted : List String
  written : List (String × String)
  aggregated : Option String
  manifest : Option String
deriving DecidableEq

/-- `main()` (lines 135-280). `seed` is what `fetch_url(INITIAL_URL)`
returns, `outcomes` gives each URL's task outcome, `order` is the
completion order `as_completed` yields (a permutation of the extracted
links), `ts` the generation timestamp. An untruthy seed aborts at line 146;
an empty link set aborts at line 154; otherwise all links are downloaded,
the aggregate document is always written, and the failure manifest only when
`failed_urls` is non-empty (line 264). -/
def main_run (seed : Option String) (outcomes : String → TaskOutcome)
    (order : List String) (ts : String) : RunResult :=
  if falsy seed then
    ⟨.abortedNoSeed, [], [], none, none⟩
  else
    let md_links := extract_md_links seed
    if md_links = ∅ then
      ⟨.abortedNoLinks, [], [], none, none⟩
    else
      let items := order.map fun u => (u, outcomes u)
      let res := downloadAll items
      ⟨.completed, order, writtenFiles items, some (aggregate_doc res.1 ts),
        if res.2 = [] then none else some (manifestText res.2)⟩

/-! ## Lemmas about the fetcher -/

/-- One loop iteration on a 200 response: the body is returned at once. -/
theorem fetchAux_success_step (responses : Nat → HttpResponse) (jitter : Nat → ℚ)
    (retries attempt f : Nat) (body : String)
    (h : responses attempt = HttpResponse.status 200 body) :
    fetchAux responses jitter retries attempt (f + 1) = ⟨some body, 1, []⟩ := by
  simp [fetchAux, h]

/-- One loop iteration on a 404 response: `None` is returned at once. -/
theorem fetchAux_notFound_step (responses : Nat → HttpResponse) (jitter : Nat → ℚ)
    (retries attempt f : Nat) (body : String)
    (h : responses attempt = HttpResponse.status 404 body) :
    fetchAux responses jitter retries attempt (f + 1) = ⟨none, 1, []⟩ := by
  simp [fetchAux, h]

/-- One loop iteration on a retryable outcome: the loop continues with the
next attempt, sleeping first exactly when a retry remains. -/
theorem fetchAux_retry_step (responses : Nat → HttpResponse) (jitter : Nat → ℚ)
    (retries attempt f : Nat) (h : retryable (responses attempt) = true) :
    fetchAux responses jitter retries attempt (f + 1) =
      if attempt < retries then
        ⟨(fetchAux responses jitter retries (attempt + 1) f).result,
         (fetchAux responses jitter retries (attempt + 1) f).attempts + 1,
         (RETRY_DELAY_BASE ^ attempt + jitter attempt) ::
           (fetchAux responses jitter retries (attempt + 1) f).sleeps⟩
      else
        ⟨(fetchAux responses jitter retries (attempt + 1) f).result,
         (fetchAux responses jitter retries (attempt + 1) f).attempts + 1,
         (fetchAux responses jitter retries (attempt + 1) f).sleeps⟩ := by
  cases hr : responses attempt with
  | status code body =>
    rw [hr] at h
    simp only [retryable, Bool.and_eq_true, Bool.not_eq_true', beq_eq_false_iff_ne] at h
    simp [fetchAux, hr, h.1, h.2]
  | timeout => simp [fetchAux, hr]
  | connError => simp [fetchAux, hr]
  | reqError => simp [fetchAux, hr]

/-- A loop that still has an iteration left performs at least one request. -/
theorem fetchAux_attempts_pos (responses : Nat → HttpResponse) (jitter : Nat → ℚ)
    (retries attempt fuel : Nat) (h : 1 ≤ fuel) :
    1 ≤ (fetchAux responses jitter retries attempt fuel).attempts := by
  obtain ⟨f, rfl⟩ : ∃ f, fuel = f + 1 := ⟨fuel - 1, by omega⟩
  by_cases hret : retryable (responses attempt) = true
  · rw [fetchAux_retry_step responses jitter retries attempt f hret]
    by_cases hlt : attempt < retries <;> simp [hlt]
  · cases hr : responses attempt with
    | status code body =>
      rw [hr] at hret
      simp only [retryable, Bool.and_eq_true, Bool.not_eq_true', beq_eq_false_iff_ne,
        not_and_or, not_not] at hret
      rcases hret with h200 | h404
      · subst h200; rw [fetchAux_success_step responses jitter retries attempt f body hr]
      · subst h404; rw [fetchAux_notFound_step responses jitter retries attempt f body hr]
    | timeout => rw [hr] at hret; simp [retryable] at hret
    | connError => rw [hr] at hret; simp [retryable] at hret
    | reqError => rw [hr] at hret; simp [retryable] at hret

/-- When every attempt's outcome is retryable, a loop entered at `attempt`
with `fuel` iterations left (the top call has `attempt + fuel = retries + 1`)
uses all its iterations, sleeps after every attempt but the last, and
returns `None`. -/
theorem fetchAux_retryable_run (responses : Nat → HttpResponse) (jitter : Nat → ℚ)
    (retries : Nat) (h : ∀ a, retryable (responses a) = true) :
    ∀ fuel attempt, attempt + fuel = retries + 1 →
      fetchAux responses jitter retries attempt fuel =
        ⟨none, fuel,
          (List.range' attempt (fuel - 1)).map fun a => RETRY_DELAY_BASE ^ a + jitter a⟩ := by
  intro fuel
  induction fuel with
  | zero => intro attempt _; simp [fetchAux]
  | succ f ih =>
    intro attempt hsum
    rw [fetchAux_retry_step responses jitter retries attempt f (h attempt)]
    rcases Nat.eq_zero_or_pos f with hf | hf
    · subst hf
      have hnlt : ¬ attempt < retries := by omega
      simp [fetchAux, hnlt]
    · have hlt : attempt < retries := by omega
      obtain ⟨g, rfl⟩ : ∃ g, f = g + 1 := ⟨f - 1, by omega⟩
      rw [ih (attempt + 1) (by omega)]
      simp [hlt, List.range'_succ]

/-- In any `fetch_url` run the sleeps are exactly the backoff delays of the
non-final attempts, in attempt order. -/
theorem fetchAux_sleeps_eq (responses : Nat → HttpResponse) (jitter : Nat → ℚ)
    (retries : Nat) :
    ∀ fuel attempt, attempt + fuel = retries + 1 →
      (fetchAux responses jitter retries attempt fuel).sleeps =
        (List.range' attempt ((fetchAux responses jitter retries attempt fuel).attempts - 1)).map
          fun a => RETRY_DELAY_BASE ^ a + jitter a := by
  intro fuel
  induction fuel with
  | zero => intro attempt _; simp [fetchAux]
  | succ f ih =>
    intro attempt hsum
    by_cases hret : retryable (responses attempt) = true
    · rw [fetchAux_retry_step responses jitter retries attempt f hret]
      rcases Nat.eq_zero_or_pos f with hf | hf
      · subst hf
        have hnlt : ¬ attempt < retries := by omega
        simp [fetchAux, hnlt]
      · have hlt : attempt < retries := by omega
        have hpos := fetchAux_attempts_pos responses jitter retries (attempt + 1) f hf
        obtain ⟨m, hm⟩ :
            ∃ m, (fetchAux responses jitter retries (attempt + 1) f).attempts = m + 1 :=
          ⟨(fetchAux responses jitter retries (attempt + 1) f).attempts - 1, by omega⟩
        have hrec := ih (attempt + 1) (by omega)
        rw [hm] at hrec
        simp [hlt, hrec, hm, List.range'_succ]
    · cases hr : responses attempt with
      | status code body =>
        rw [hr] at hret
        simp only [retryable, Bool.and_eq_true, Bool.not_eq_true', beq_eq_false_iff_ne,
          not_and_or, not_not] at hret
        rcases hret with h200 | h404
        · subst h200
          rw [fetchAux_success_step responses jitter retries attempt f body hr]
          simp
        · subst h404
          rw [fetchAux_notFound_step responses jitter retries attempt f body hr]
          simp
      | timeout => rw [hr] at hret; simp [retryable] at hret
      | connError => rw [hr] at hret; simp [retryable] at hret
      | reqError => rw [hr] at hret; simp [retryable] at hret

/-! ## Claim theorems for the fetcher -/

/-- C2: for every `maxRetries ≥ 0`, `fetch_url` on a URL whose response
always has a not-found (404) status performs exactly one request attempt,
returns `None` immediately, and never sleeps for backoff. -/
theorem fetch_url_notFound_single_attempt (responses : Nat → HttpResponse)
    (jitter : Nat → ℚ) (retries : Nat)
    (h : ∀ a, ∃ body, responses a = HttpResponse.status 404 body) :
    fetch_url responses jitter retries = ⟨none, 1, []⟩ := by
  obtain ⟨body, hb⟩ := h 0
  rw [fetch_url, fetchAux_notFound_step responses jitter retries 0 retries body hb]

/-- Witness for C2 at a concrete input: three allowed retries, every
response 404. -/
theorem fetch_url_notFound_single_attempt_witness :
    fetch_url (fun _ => HttpResponse.status 404 "") (fun _ => (0 : ℚ)) 3 = ⟨none, 1, []⟩ :=
  fetch_url_notFound_single_attempt (fun _ => HttpResponse.status 404 "") (fun _ => (0 : ℚ)) 3
    (fun _ => ⟨"", rfl⟩)

/-- C3: for every `maxRetries ≥ 0`, `fetch_url` on a URL whose every attempt
fails with a retryable outcome performs exactly `maxRetries + 1` attempts,
sleeps exactly once between consecutive attempts — the delays being, in
order, the backoff of attempts `0, …, maxRetries - 1`, hence `maxRetries`
sleeps and none after the last attempt — and returns `None`. -/
theorem fetch_url_allRetryable_trace (responses : Nat → HttpResponse) (jitter : Nat → ℚ)
    (retries : Nat) (h : ∀ a, retryable (responses a) = true) :
    fetch_url responses jitter retries =
      ⟨none, retries + 1, (List.range retries).map fun a => 2 ^ a + jitter a⟩ := by
  rw [fetch_url, fetchAux_retryable_run responses jitter retries h (retries + 1) 0 (by omega)]
  simp [List.range_eq_range', RETRY_DELAY_BASE]

/-- Witness for C3 at a concrete input: two allowed retries, every attempt
a timeout. -/
theorem fetch_url_allRetryable_trace_witness :
    fetch_url (fun _ => HttpResponse.timeout) (fun _ => (0 : ℚ)) 2 =
      ⟨none, 2 + 1, (List.range 2).map fun a => 2 ^ a + (fun _ => (0 : ℚ)) a⟩ :=
  fetch_url_allRetryable_trace (fun _ => HttpResponse.timeout) (fun _ => (0 : ℚ)) 2
    (fun _ => rfl)

/-- C4: in `fetch_url`, the backoff delay slept after the failed attempt at
0-indexed position `a` (there is one exactly when a retry remains, i.e. the
`a`-th sleep of the run) equals `2 ^ a + uniform_random(0, 1)` seconds, and
with `0 ≤ jitter < 1` it lies in `[2 ^ a, 2 ^ a + 1)`, growing exponentially
with the attempt index. -/
theorem fetch_url_backoff_delay (responses : Nat → HttpResponse) (jitter : Nat → ℚ)
    (retries : Nat) (hj : ∀ a, 0 ≤ jitter a ∧ jitter a < 1) (a : Nat)
    (ha : a < (fetch_url responses jitter retries).sleeps.length) :
    (fetch_url responses jitter retries).sleeps[a]? = some (2 ^ a + jitter a) ∧
    (2 : ℚ) ^ a ≤ 2 ^ a + jitter a ∧ 2 ^ a + jitter a < 2 ^ a + 1 := by
  have hs := fetchAux_sleeps_eq responses jitter retries (retries + 1) 0 (by omega)
  rw [fetch_url] at ha ⊢
  rw [hs] at ha ⊢
  simp only [List.length_map, List.length_range'] at ha
  refine ⟨?_, ?_, ?_⟩
  · rw [List.getElem?_map, List.getElem?_range' 0 1 ha]
    simp [RETRY_DELAY_BASE]
  · exact le_add_of_nonneg_right (hj a).1
  · exact add_lt_add_left (hj a).2 _

/-! ## Lemmas about link extraction -/

/-- C6: `extract_md_links` on the empty string and on an absent input both
return the empty set. -/
theorem extract_md_links_empty_inputs :
    extract_md_links none = ∅ ∧ extract_md_links (some "") = ∅ := by
  constructor <;> rfl

/-! ## Lemmas about the collection loop -/

/-- A success record's URL is the item's URL. -/
theorem succRecord_fst (i : String × TaskOutcome) (r : String × String)
    (h : succRecord i = some r) : r.1 = i.1 := by
  obtain ⟨url, oc⟩ := i
  cases oc with
  | raised => simp [succRecord] at h
  | completed content w =>
    cases content with
    | none => simp [succRecord] at h
    | some c =>
      simp only [succRecord] at h
      split_ifs at h
      simp only [Option.some.injEq] at h
      rw [← h]

/-- A failure entry is the item's URL. -/
theorem failUrl_eq_some (i : String × TaskOutcome) (u : String)
    (h : failUrl i = some u) : u = i.1 := by
  obtain ⟨url, oc⟩ := i
  cases oc with
  | raised => simpa [failUrl] using h.symm
  | completed content w =>
    cases content with
    | none => simpa [failUrl] using h.symm
    | some c =>
      simp only [failUrl] at h
      split_ifs at h <;> simpa using h.symm

/-- One loop iteration appends each item's contributions to the accumulator. -/
theorem processResult_eq (acc : List (String × String) × List String) (url : String)
    (oc : TaskOutcome) :
    processResult acc url oc =
      (acc.1 ++ (succRecord (url, oc)).toList, acc.2 ++ (failUrl (url, oc)).toList) := by
  cases oc with
  | raised => simp [processResult, succRecord, failUrl]
  | completed content w =>
    cases content with
    | none => simp [processResult, succRecord, failUrl]
    | some c =>
      by_cases hc : c = ""
      · simp [processResult, succRecord, failUrl, hc]
      · cases w <;> simp [processResult, succRecord, failUrl, hc]

/-- The collection loop from any accumulator. -/
theorem downloadAll_foldl : ∀ (items : List (String × TaskOutcome))
    (acc : List (String × String) × List String),
    items.foldl (fun acc i => processResult acc i.1 i.2) acc =
      (acc.1 ++ items.filterMap succRecord, acc.2 ++ items.filterMap failUrl) := by
  intro items
  induction items with
  | nil => intro acc; simp
  | cons i rest ih =>
    intro acc
    rw [List.foldl_cons, ih, processResult_eq]
    cases hs : succRecord i <;> cases hf : failUrl i <;>
      simp [List.filterMap_cons, Prod.mk.eta, hs, hf, List.append_assoc]

/-- `downloadAll` collects exactly the per-item contributions, in order. -/
theorem downloadAll_eq (items : List (String × TaskOutcome)) :
    downloadAll items = (items.filterMap succRecord, items.filterMap failUrl) := by
  rw [downloadAll, downloadAll_foldl]
  simp

/-- A URL not among the items appears in neither output. -/
theorem downloadAll_count_notMem : ∀ (items : List (String × TaskOutcome)) (u : String),
    u ∉ items.map Prod.fst →
    ((items.filterMap succRecord).map Prod.fst).count u = 0 ∧
    (items.filterMap failUrl).count u = 0 := by
  intro items
  induction items with
  | nil => simp
  | cons i rest ih =>
    intro u hu
    simp only [List.map_cons, List.mem_cons] at hu
    push_neg at hu
    obtain ⟨hne, hmem⟩ := hu
    obtain ⟨ih1, ih2⟩ := ih u hmem
    constructor
    · cases hs : succRecord i with
      | none => simp [List.filterMap_cons, hs, ih1]
      | some r =>
        have hr : r.1 = i.1 := succRecord_fst i r hs
        simp [List.filterMap_cons, hs, ih1, List.count_cons, hr, hne]
    · cases hf : failUrl i with
      | none => simp [List.filterMap_cons, hf, ih2]
      | some v =>
        have hv : v = i.1 := failUrl_eq_some i v hf
        simp [List.filterMap_cons, hf, ih2, List.count_cons, hv, hne]

/-- Per-URL exact counts of the two outputs, for distinct submitted URLs. -/
theorem downloadAll_count_mem : ∀ (items : List (String × TaskOutcome)),
    (items.map Prod.fst).Nodup → ∀ (u : String) (oc : TaskOutcome), (u, oc) ∈ items →
    ((items.filterMap succRecord).map Prod.fst).count u = (if succOutcome oc then 1 else 0) ∧
    (items.filterMap failUrl).count u = (if failOutcome oc then 1 else 0) := by
  intro items
  induction items with
  | nil => intro _ u oc h; simp at h
  | cons i rest ih =>
    intro hnd u oc hmem
    simp only [List.map_cons, List.nodup_cons] at hnd
    obtain ⟨hni, hndr⟩ := hnd
    rcases List.mem_cons.mp hmem with heq | hmem'
    · obtain rfl : i = (u, oc) := heq.symm
      have hnotin : u ∉ rest.map Prod.fst := hni
      obtain ⟨hz1, hz2⟩ := downloadAll_count_notMem rest u hnotin
      constructor
      · cases oc with
        | raised => simp [List.filterMap_cons, succRecord, succOutcome, hz1]
        | completed content w =>
          cases content with
          | none => simp [List.filterMap_cons, succRecord, succOutcome, hz1]
          | some c =>
            by_cases hc : c = ""
            · simp [List.filterMap_cons, succRecord, succOutcome, hc, hz1]
            · simp [List.filterMap_cons, succRecord, succOutcome, hc, hz1, List.count_cons]
      · cases oc with
        | raised => simp [List.filterMap_cons, failUrl, failOutcome, hz2, List.count_cons]
        | completed content w =>
          cases content with
          | none => simp [List.filterMap_cons, failUrl, failOutcome, hz2, List.count_cons]
          | some c =>
            by_cases hc : c = ""
            · simp [List.filterMap_cons, failUrl, failOutcome, hc, hz2, List.count_cons]
            · cases w <;>
                simp [List.filterMap_cons, failUrl, failOutcome, hc, hz2, List.count_cons]
    · have hu_in : u ∈ rest.map Prod.fst := by
        exact List.mem_map.mpr ⟨(u, oc), hmem', rfl⟩
      have hne : ¬ i.1 = u := fun h => hni (h ▸ hu_in)
      obtain ⟨h1, h2⟩ := ih hndr u oc hmem'
      constructor
      · cases hs : succRecord i with
        | none => simp [List.filterMap_cons, hs, h1]
        | some r =>
          have hr : r.1 = i.1 := succRecord_fst i r hs
          simp [List.filterMap_cons, hs, h1, List.count_cons, hr, hne]
      · cases hf : failUrl i with
        | none => simp [List.filterMap_cons, hf, h2]
        | some v =>
          have hv : v = i.1 := failUrl_eq_some i v hf
          simp [List.filterMap_cons, hf, h2, List.count_cons, hv, hne]

/-! ## Claim theorems for the collection loop -/

/-- C1 (counterexample): when a task returns non-empty content but writing
the individual file raises, the URL is recorded in `results` (the append at
line 180 has already happened) and then again in `failed_urls` by the
`except` clause (line 191) — it appears in both outputs, contradicting the
claim that every URL appears in exactly one of them. -/
theorem downloadAll_url_in_both_outputs :
    "u" ∈ ((downloadAll [("u", TaskOutcome.completed (some "hello") true)]).1.map Prod.fst) ∧
    "u" ∈ (downloadAll [("u", TaskOutcome.completed (some "hello") true)]).2 := by
  constructor <;> decide

/-- C1 (amended): after the loop over distinct submitted URLs, each URL is
in `results` exactly when its task completed with truthy content and in
`failed_urls` exactly when it raised, had falsy content, or its file write
raised; every URL lands in at least one list, at most once in each, and its
total number of appearances is 1 — except a URL with truthy content whose
file write raised, which appears once in each list, totalling 2. -/
theorem downloadAll_outcome_counts (items : List (String × TaskOutcome))
    (hnd : (items.map Prod.fst).Nodup) (u : String) (oc : TaskOutcome)
    (hmem : (u, oc) ∈ items) :
    ((downloadAll items).1.map Prod.fst).count u = (if succOutcome oc then 1 else 0) ∧
    (downloadAll items).2.count u = (if failOutcome oc then 1 else 0) ∧
    (succOutcome oc || failOutcome oc) = true ∧
    ((downloadAll items).1.map Prod.fst).count u + (downloadAll items).2.count u =
      (if doubleOutcome oc then 2 else 1) := by
  obtain ⟨h1, h2⟩ := downloadAll_count_mem items hnd u oc hmem
  rw [downloadAll_eq]
  refine ⟨h1, h2, ?_, ?_⟩
  · cases oc with
    | raised => rfl
    | completed content w =>
      cases content with
      | none => rfl
      | some c =>
        by_cases hc : c = "" <;> simp [succOutcome, failOutcome, hc]
  · rw [h1, h2]
    cases oc with
    | raised => rfl
    | completed content w =>
      cases content with
      | none => rfl
      | some c =>
        by_cases hc : c = "" <;> cases w <;>
          simp [succOutcome, failOutcome, doubleOutcome, hc]

/-- Witness for the amended C1 at a concrete input: one URL whose task
completed with content `"x"` and whose file write succeeded. -/
theorem downloadAll_outcome_counts_witness :
    ((downloadAll [("u", TaskOutcome.completed (some "x") false)]).1.map Prod.fst).count "u" = 1 ∧
    (downloadAll [("u", TaskOutcome.completed (some "x") false)]).2.count "u" = 0 ∧
    (succOutcome (TaskOutcome.completed (some "x") false) ||
      failOutcome (TaskOutcome.completed (some "x") false)) = true ∧
    ((downloadAll [("u", TaskOutcome.completed (some "x") false)]).1.map Prod.fst).count "u" +
      (downloadAll [("u", TaskOutcome.completed (some "x") false)]).2.count "u" = 1 :=
  downloadAll_outcome_counts [("u", TaskOutcome.completed (some "x") false)] (by decide)
    "u" (TaskOutcome.completed (some "x") false) (by decide)

/-- C10: a fetch whose response is 200 with empty body returns the empty
string itself, but `download_md_file` maps it to `(url, None)`, so the
collection loop records the URL as failed; and an empty seed body makes
`main` abort exactly as if the seed fetch had returned `None`. -/
theorem empty_body_classified_failure (u : String) (jitter : Nat → ℚ) (retries : Nat)
    (outcomes : String → TaskOutcome) (order : List String) (ts : String) (w : Bool) :
    fetch_url (fun _ => HttpResponse.status 200 "") jitter retries = ⟨some "", 1, []⟩ ∧
    download_md_file u (some "") = (u, none) ∧
    downloadAll [(u, TaskOutcome.completed (download_md_file u (some "")).2 w)] = ([], [u]) ∧
    main_run (some "") outcomes order ts = main_run none outcomes order ts ∧
    (main_run (some "") outcomes order ts).phase = RunPhase.abortedNoSeed := by
  refine ⟨?_, rfl, rfl, rfl, rfl⟩
  exact fetchAux_success_step (fun _ => HttpResponse.status 200 "") jitter retries 0 retries "" rfl

/-! ## Lemmas about aggregation and the run driver -/

/-- `String.append` concatenates the underlying character lists. -/
theorem strData_append (a b : String) : (a ++ b).data = a.data ++ b.data := rfl

/-- `String.append` is associative. -/
theorem str_append_assoc (a b c : String) : a ++ b ++ c = a ++ (b ++ c) := by
  cases a
  cases b
  cases c
  show String.mk _ = String.mk _
  rw [List.append_assoc]

/-- An infix of the right factor is an infix of a concatenation. -/
theorem infix_str_right (a b : String) (x : List Char) (hx : x <:+: b.data) :
    x <:+: (a ++ b).data := by
  rw [strData_append]
  exact hx.trans (List.suffix_append a.data b.data).isInfix

/-- An infix of the left factor is an infix of a concatenation. -/
theorem infix_str_left (a b : String) (x : List Char) (hx : x <:+: a.data) :
    x <:+: (a ++ b).data := by
  rw [strData_append]
  exact hx.trans (List.prefix_append a.data b.data).isInfix

/-- The aggregate document over a single record, decomposed. -/
theorem aggregate_doc_singleton (url content ts : String) :
    aggregate_doc [(url, content)] ts =
      "# P2P.org Aggregated Documentation\n\n*This file contains aggregated documentation from 1 markdown files.*\n\n*Generated on: " ++
      ts ++ "*\n\n" ++ "## Table of Contents\n\n" ++ tocLine 1 url ++ "\n---\n\n" ++
      sectionBlock url content := by
  have h1 : toString (1 : Nat) = "1" := rfl
  have h2 : ∀ s : String, "" ++ s = s := fun s => rfl
  simp [aggregate_doc, List.enum, List.enumFrom, String.join, h1, h2]

/-! ## Claim theorems for aggregation and the run driver -/

/-- C7: for a record whose URL has final path segment `foo-bar.md` and
content `"hello"`, the aggregate document contains the table-of-contents
entry with anchor `#foo-bar` and the section titled `Foo Bar` holding the
content `hello` verbatim between its attribution line and its separator. -/
theorem aggregate_roundtrip_foo_bar (url ts : String) (h : basename url = "foo-bar.md") :
    ("1. [Foo Bar](#foo-bar)\n").data <:+: (aggregate_doc [(url, "hello")] ts).data ∧
    ("## Foo Bar\n\n*Source: [" ++ url ++ "](" ++ url ++ ")*\n\nhello\n\n---\n\n").data <:+:
      (aggregate_doc [(url, "hello")] ts).data := by
  have htitle : titleFor url = "Foo Bar" := by
    unfold titleFor
    rw [h]
    decide
  have hanchor : anchorFor url = "foo-bar" := by
    unfold anchorFor
    rw [htitle]
    decide
  have htoc : tocLine 1 url = "1. [Foo Bar](#foo-bar)\n" := by
    unfold tocLine
    rw [htitle, hanchor]
    decide
  have hsec : sectionBlock url "hello" =
      "## Foo Bar\n\n*Source: [" ++ url ++ "](" ++ url ++ ")*\n\nhello\n\n---\n\n" := by
    unfold sectionBlock
    rw [htitle]
    simp [str_append_assoc]
  constructor
  · rw [aggregate_doc_singleton, ← htoc]
    exact infix_str_left _ _ _ (infix_str_left _ _ _ (infix_str_right _ _ _ List.infix_rfl))
  · rw [aggregate_doc_singleton, ← hsec]
    exact infix_str_right _ _ _ List.infix_rfl

/-- Witness for C7 at a concrete input. -/
theorem aggregate_roundtrip_foo_bar_witness :
    ("1. [Foo Bar](#foo-bar)\n").data <:+:
      (aggregate_doc [("https://docs.p2p.org/docs/foo-bar.md", "hello")] "2025-01-01").data ∧
    ("## Foo Bar\n\n*Source: [" ++ "https://docs.p2p.org/docs/foo-bar.md" ++ "](" ++
        "https://docs.p2p.org/docs/foo-bar.md" ++ ")*\n\nhello\n\n---\n\n").data <:+:
      (aggregate_doc [("https://docs.p2p.org/docs/foo-bar.md", "hello")] "2025-01-01").data :=
  aggregate_roundtrip_foo_bar "https://docs.p2p.org/docs/foo-bar.md" "2025-01-01" (by decide)

/-- C8: when the seed fetch fails (or yields an untruthy body) or the seed
yields zero extractable links, `main` reports the corresponding abort and
stops before any downloads: nothing is submitted, no individual file is
written, and neither the aggregate document nor the failure manifest is
produced. -/
theorem main_run_aborts_before_downloads (seed : Option String)
    (outcomes : String → TaskOutcome) (order : List String) (ts : String)
    (h : falsy seed = true ∨ extract_md_links seed = ∅) :
    ((main_run seed outcomes order ts).phase = RunPhase.abortedNoSeed ∨
      (main_run seed outcomes order ts).phase = RunPhase.abortedNoLinks) ∧
    (main_run seed outcomes order ts).submitted = [] ∧
    (main_run seed outcomes order ts).written = [] ∧
    (main_run seed outcomes order ts).aggregated = none ∧
    (main_run seed outcomes order ts).manifest = none := by
  by_cases hf : falsy seed = true
  · simp [main_run, hf]
  · have hl : extract_md_links seed = ∅ := by
      rcases h with h | h
      · exact absurd h hf
      · exact h
    simp [main_run, hf, hl]

/-- Witness for C8 at a concrete input: the seed fetch returned `None`. -/
theorem main_run_aborts_before_downloads_witness :
    (((main_run none (fun _ => TaskOutcome.raised) [] "").phase = RunPhase.abortedNoSeed ∨
      (main_run none (fun _ => TaskOutcome.raised) [] "").phase = RunPhase.abortedNoLinks)) ∧
    (main_run none (fun _ => TaskOutcome.raised) [] "").submitted = [] ∧
    (main_run none (fun _ => TaskOutcome.raised) [] "").written = [] ∧
    (main_run none (fun _ => TaskOutcome.raised) [] "").aggregated = none ∧
    (main_run none (fun _ => TaskOutcome.raised) [] "").manifest = none :=
  main_run_aborts_before_downloads none (fun _ => TaskOutcome.raised) [] "" (Or.inl rfl)

/-- C9: in a completed run, the failure manifest is written iff at least one
URL failed, and when written it holds exactly the URLs of the failure list,
one per line, in order; with no failure no manifest is created. -/
theorem main_run_failure_manifest (seed : Option String) (outcomes : String → TaskOutcome)
    (order : List String) (ts : String) (h1 : falsy seed = false)
    (h2 : extract_md_links seed ≠ ∅) :
    ((main_run seed outcomes order ts).manifest = none ↔
      (downloadAll (order.map fun u => (u, outcomes u))).2 = []) ∧
    ((downloadAll (order.map fun u => (u, outcomes u))).2 ≠ [] →
      (main_run seed outcomes order ts).manifest =
        some (manifestText (downloadAll (order.map fun u => (u, outcomes u))).2)) := by
  have hm : main_run seed outcomes order ts =
      ⟨RunPhase.completed, order, writtenFiles (order.map fun u => (u, outcomes u)),
        some (aggregate_doc (downloadAll (order.map fun u => (u, outcomes u))).1 ts),
        if (downloadAll (order.map fun u => (u, outcomes u))).2 = [] then none
        else some (manifestText (downloadAll (order.map fun u => (u, outcomes u))).2)⟩ := by
    simp [main_run, h1, h2]
  rw [hm]
  constructor
  · by_cases hfl : (downloadAll (order.map fun u => (u, outcomes u))).2 = [] <;> simp [hfl]
  · intro hne
    simp [hne]

/-- Witness for C9 at a concrete input: one extracted link whose task
raised, so the manifest holds exactly that URL. -/
theorem main_run_failure_manifest_witness :
    ((main_run (some "[A](a.md)") (fun _ => TaskOutcome.raised)
        ["https://docs.p2p.org/a.md"] "").manifest = none ↔
      (downloadAll (["https://docs.p2p.org/a.md"].map
        fun u => (u, (fun _ => TaskOutcome.raised) u))).2 = []) ∧
    ((downloadAll (["https://docs.p2p.org/a.md"].map
        fun u => (u, (fun _ => TaskOutcome.raised) u))).2 ≠ [] →
      (main_run (some "[A](a.md)") (fun _ => TaskOutcome.raised)
          ["https://docs.p2p.org/a.md"] "").manifest =
        some (manifestText (downloadAll (["https://docs.p2p.org/a.md"].map
          fun u => (u, (fun _ => TaskOutcome.raised) u))).2)) :=
  main_run_failure_manifest (some "[A](a.md)") (fun _ => TaskOutcome.raised)
    ["https://docs.p2p.org/a.md"] "" rfl (by decide)

/-- Witness for C4 at a concrete input: every attempt times out, jitter is
`1/2`, two allowed retries, sleep index 1. -/
theorem fetch_url_backoff_delay_witness :
    (fetch_url (fun _ => HttpResponse.timeout) (fun _ => (1 : ℚ) / 2) 2).sleeps[1]? =
      some (2 ^ 1 + (fun _ => (1 : ℚ) / 2) 1) ∧
    (2 : ℚ) ^ 1 ≤ 2 ^ 1 + (fun _ => (1 : ℚ) / 2) 1 ∧
    2 ^ 1 + (fun _ => (1 : ℚ) / 2) 1 < 2 ^ 1 + 1 :=
  fetch_url_backoff_delay (fun _ => HttpResponse.timeout) (fun _ => (1 : ℚ) / 2) 2
    (fun _ => ⟨by norm_num, by norm_num⟩) 1 (by decide)

